import Mathlib

/-!
Verification of the drait extraction and inference pipeline
(src/drait/parsers/python_parser.py and src/drait/metamodel.py)
against its natural-language specification.

The Python AST nodes inspected by the parser are embedded as a closed
inductive family; each parser function is translated one-for-one into a
Lean function.  Machinery notes:

* `uuid4` (the random identifier factory used as the dataclass default
  for Attribute/Method/Relationship/Package ids) is modelled as an
  explicit supply `g : Nat -> String` together with a draw counter that
  is threaded through extraction exactly where the Python dataclass
  constructors fire.  Two independent extraction runs are two runs with
  unrelated supplies.
* `uuid5(NAMESPACE_DNS, "drait:" ++ name)` is a deterministic hash; it
  is modelled as the injective tagged string `"uuid5:dns:drait:" ++ name`.
* `ast.unparse` is modelled as a total rendering function returning
  `Option String`; the unavailable case corresponds to the `except`
  branches guarding it.
* Python string tests (`startswith`, `endswith`, `in`) are modelled over
  the character lists of Lean strings.
-/

namespace Drait

/-! ## Python constants and strings -/

/-- Constant payloads that can occur in the AST positions the parser
inspects (`ast.Constant`). -/
inductive PyConst where
  | pyNone
  | pyBool (b : Bool)
  | pyInt (n : Int)
  | pyStr (s : String)
deriving DecidableEq, Repr

/-- Model of Python `str(value)` on a constant value. -/
def pyStrOf : PyConst → String
  | .pyNone => "None"
  | .pyBool true => "True"
  | .pyBool false => "False"
  | .pyInt n => toString n
  | .pyStr s => s

/-- Model of Python `type(value).__name__` on a constant value. -/
def pyTypeName : PyConst → String
  | .pyNone => "NoneType"
  | .pyBool _ => "bool"
  | .pyInt _ => "int"
  | .pyStr _ => "str"

/-- Model of the source rendering of a constant (as `ast.unparse` would
print it; string constants are quoted). -/
def pyRepr : PyConst → String
  | .pyNone => "None"
  | .pyBool true => "True"
  | .pyBool false => "False"
  | .pyInt n => toString n
  | .pyStr s => "\x27" ++ s ++ "\x27"

/-- Python `a.startswith(p)`, over character lists. -/
def strStarts (s p : String) : Bool :=
  p.toList.isPrefixOf s.toList

/-- Python `a.endswith(p)`, over character lists. -/
def strEnds (s p : String) : Bool :=
  p.toList.isSuffixOf s.toList

/-- Helper for substring search over character lists. -/
def subOccurs (pat : List Char) : List Char → Bool
  | [] => pat.isEmpty
  | c :: rest => pat.isPrefixOf (c :: rest) || subOccurs pat rest

/-- Python `pat in s` substring containment on strings. -/
def containsSub (s pat : String) : Bool :=
  subOccurs pat.toList s.toList

/-! ## The embedded Python AST

Only the node shapes the parser branches on are distinguished; every
other expression shape is collapsed into `Expr.other`, which carries the
`ast.unparse` rendering the real node would have (`none` when
unavailable). -/

/-- Expressions (`ast.expr`). -/
inductive Expr where
  | name (id : String)
  | constant (c : PyConst)
  | subscript (value : Expr) (slice : Expr)
  | binOpOr (left : Expr) (right : Expr)
  | binOpOther (left : Expr) (right : Expr)
  | attr (value : Expr) (attrName : String)
  | tuple (elts : List Expr)
  | listLit (elts : List Expr)
  | dictLit
  | setLit (elts : List Expr)
  | call (func : Expr) (args : List Expr) (keywords : List (String × Expr))
  | other (rendering : Option String)

/-- Function arguments (`ast.arg`): a name and an optional annotation. -/
structure Arg where
  argName : String
  ann : Option Expr

/-- Statements (`ast.stmt`), restricted to the shapes the parser
inspects; compound statements other than class and function bodies are
collapsed into `passStmt`. -/
inductive Stmt where
  | assign (targets : List Expr) (value : Expr)
  | annAssign (target : Expr) (ann : Expr) (value : Option Expr)
  | functionDef (fname : String) (args : List Arg) (body : List Stmt)
      (decoratorList : List Expr) (returns : Option Expr)
  | classDef (cname : String) (bases : List Expr) (body : List Stmt)
      (decoratorList : List Expr)
  | exprStmt (e : Expr)
  | passStmt

/-- A module (`ast.Module`): its statement body. -/
structure Module where
  body : List Stmt

/-! ## Rendering (`ast.unparse`) -/

mutual

/-- Model of `ast.unparse` on an expression; `none` models the
rendering being unavailable (the `except` branches that guard it). -/
def unparse : Expr → Option String
  | .name i => some i
  | .constant c => some (pyRepr c)
  | .subscript v s => do
      let vs ← unparse v
      let ss ← unparse s
      pure (vs ++ "[" ++ ss ++ "]")
  | .binOpOr l r => do
      let ls ← unparse l
      let rs ← unparse r
      pure (ls ++ " | " ++ rs)
  | .binOpOther l r => do
      let ls ← unparse l
      let rs ← unparse r
      pure (ls ++ " ? " ++ rs)
  | .attr v a => do
      let vs ← unparse v
      pure (vs ++ "." ++ a)
  | .tuple elts => do
      let ss ← unparseList elts
      pure (String.intercalate ", " ss)
  | .listLit elts => do
      let ss ← unparseList elts
      pure ("[" ++ String.intercalate ", " ss ++ "]")
  | .dictLit => some "\x7b\x7d"
  | .setLit elts => do
      let ss ← unparseList elts
      pure ("\x7b" ++ String.intercalate ", " ss ++ "\x7d")
  | .call f args _ => do
      let fs ← unparse f
      let ss ← unparseList args
      pure (fs ++ "(" ++ String.intercalate ", " ss ++ ")")
  | .other r => r

/-- `unparse` mapped over a list of expressions. -/
def unparseList : List Expr → Option (List String)
  | [] => some []
  | e :: rest => do
      let s ← unparse e
      let ss ← unparseList rest
      pure (s :: ss)

end

/-! ## Metamodel (src/drait/metamodel.py)

Only the fields the parser populates (and the identity fields the claims
are about) are modelled.  UUIDs are modelled as strings. -/

/-- `Visibility` enumeration (metamodel.py). -/
inductive Visibility where
  | pub
  | prot
  | priv
deriving DecidableEq, Repr

/-- `RelationshipType` enumeration (metamodel.py). -/
inductive RelationshipType where
  | inheritance
  | association
  | aggregation
  | composition
  | dependency
  | realization
deriving DecidableEq, Repr

/-- `TypeReference` (metamodel.py): name, optional module, type
arguments and the optionality flag. -/
structure TypeReference where
  name : String
  module : Option String
  type_arguments : List TypeReference
  is_optional : Bool

/-- A `TypeReference` built with only the `name` argument, all other
dataclass fields at their defaults. -/
def TR (name : String) : TypeReference :=
  ⟨name, none, [], false⟩

/-- `Decorator` (metamodel.py): name, optional module and an ordered
argument map (Python dicts preserve insertion order). -/
structure Decorator where
  name : String
  module : Option String := none
  arguments : List (String × String) := []

/-- `Parameter` (metamodel.py), restricted to the fields the parser
sets: name and optional type. -/
structure Parameter where
  name : String
  type : Option TypeReference := none

/-- `Attribute` (metamodel.py).  Its `id` dataclass field defaults to
`uuid4()`: a fresh random draw at construction time. -/
structure Attribute where
  name : String
  type : Option TypeReference
  id : String
  visibility : Visibility
  default_value : Option String
  is_static : Bool

/-- `Method` (metamodel.py).  Its `id` defaults to a fresh `uuid4()`. -/
structure Method where
  name : String
  id : String
  parameters : List Parameter
  return_type : Option TypeReference
  visibility : Visibility
  is_static : Bool
  is_class_method : Bool
  is_abstract : Bool
  decorators : List Decorator
  docstring : Option String

/-- `Class` (metamodel.py).  `__post_init__` overwrites the `id` field
with `generate_deterministic_uuid` of the class name (the metadata dict
is empty on the `parse_source` path). -/
structure Class where
  name : String
  id : String
  attributes : List Attribute
  methods : List Method
  decorators : List Decorator
  base_classes : List String
  is_abstract : Bool
  docstring : Option String

/-- `Relationship` (metamodel.py); `id` defaults to a fresh `uuid4()`. -/
structure Relationship where
  type : RelationshipType
  source_id : String
  target_id : String
  id : String
  source_role : Option String := none
  target_role : Option String := none
deriving DecidableEq, Repr

/-- `Package` (metamodel.py); `id` defaults to a fresh `uuid4()`. -/
structure Package where
  name : String
  id : String
  classes : List Class
  relationships : List Relationship
  docstring : Option String

/-- `generate_deterministic_uuid` (metamodel.py): `uuid5` over the DNS
namespace of `"drait:" ++ name` — a pure deterministic hash, modelled as
an injective tagged string. -/
def generate_deterministic_uuid (name : String) : String :=
  "uuid5:dns:drait:" ++ name

mutual

/-- `TypeReference.__str__` (metamodel.py): render name with bracketed
type arguments, appending `" | None"` when optional. -/
def trStr : TypeReference → String
  | ⟨n, _, args, opt⟩ =>
    let base :=
      match args with
      | [] => n
      | _ => n ++ "[" ++ String.intercalate ", " (trStrList args) ++ "]"
    if opt then base ++ " | None" else base

/-- `trStr` mapped over a list of type references. -/
def trStrList : List TypeReference → List String
  | [] => []
  | t :: ts => trStr t :: trStrList ts

end

/-! ## Type annotation resolution (python_parser.py) -/

/-- `PythonParser._get_module_from_attribute` inner while loop: the
dotted parts of an attribute chain (a non-Name chain head contributes
nothing). -/
def chainParts : Expr → List String
  | .attr v a => chainParts v ++ [a]
  | .name i => [i]
  | _ => []

/-- `PythonParser._get_module_from_attribute`: the module prefix of an
`ast.Attribute` node (inspects the `.value` of the node). -/
def getModuleFromAttribute : Expr → Option String
  | .attr inner _ =>
    match inner with
    | .name i => some i
    | .attr v a => some (String.intercalate "." (chainParts (.attr v a)))
    | _ => none
  | _ => none

/-- `PythonParser._get_attribute_name`: full dotted name of an
attribute chain, e.g. `module.ClassName`. -/
def getAttributeName (e : Expr) : String :=
  String.intercalate "." (chainParts e)

mutual

/-- `PythonParser._parse_type_annotation`: resolve an annotation
expression to a `TypeReference`; unrecognized shapes fall back to the
`ast.unparse` rendering or `"Any"`. -/
def parseTypeAnn : Expr → TypeReference
  | .name i => TR i
  | .constant c => TR (pyStrOf c)
  | .subscript v s => parseSubscriptType v s
  | .binOpOr l r => parseUnionType l r
  | .attr v a => ⟨a, getModuleFromAttribute (.attr v a), [], false⟩
  | e =>
    match unparse e with
    | some s => TR s
    | none => TR "Any"
termination_by e => 3 * sizeOf e

/-- `PythonParser._parse_subscript_type`: resolve `Outer[Args]`,
with special handling for `Optional` and `Union`. -/
def parseSubscriptType (v slice : Expr) : TypeReference :=
  let bm : String × Option String :=
    match v with
    | .name i => (i, none)
    | .attr v2 a => (a, getModuleFromAttribute (.attr v2 a))
    | e =>
      match unparse e with
      | some s => (s, none)
      | none => ("Any", none)
  let type_args : List TypeReference :=
    match slice with
    | .tuple elts => parseAnnList elts
    | s => [parseTypeAnn s]
  if bm.1 = "Optional" then
    match type_args with
    | t :: _ => { t with is_optional := true }
    | [] => ⟨"Any", none, [], true⟩
  else if bm.1 = "Union" then
    TR ("Union[" ++ String.intercalate ", " (trStrList type_args) ++ "]")
  else
    ⟨bm.1, bm.2, type_args, false⟩
termination_by 3 * (sizeOf v + sizeOf slice) + 1

/-- The `collect_union_types` closure inside
`PythonParser._parse_union_type`: flatten a `BitOr` chain into the list
of resolved operand types. -/
def collectUnionTypes : Expr → List TypeReference
  | .binOpOr l r => collectUnionTypes l ++ collectUnionTypes r
  | e => [parseTypeAnn e]
termination_by e => 3 * sizeOf e + 1

/-- `PythonParser._parse_union_type`: resolve an infix `|` union node
with operands `l | r` (its first `collect_union_types` step is inlined
into the two operand calls).  If exactly one non-None operand remains
the result is that operand marked optional; otherwise the name is the
`" | "`-joined rendering of all operands. -/
def parseUnionType (l r : Expr) : TypeReference :=
  let types := collectUnionTypes l ++ collectUnionTypes r
  let has_none := types.any (fun t => t.name = "None")
  if has_none then
    let non_none := types.filter (fun t => t.name ≠ "None")
    match non_none with
    | [t] => { t with is_optional := true }
    | _ => TR (String.intercalate " | " (trStrList types))
  else
    TR (String.intercalate " | " (trStrList types))
termination_by 3 * (sizeOf l + sizeOf r) + 2

/-- `parseTypeAnn` mapped over subscript tuple elements. -/
def parseAnnList : List Expr → List TypeReference
  | [] => []
  | e :: rest => parseTypeAnn e :: parseAnnList rest
termination_by l => 3 * sizeOf l

end

/-! ## Member extraction (python_parser.py) -/

/-- A `uuid4` supply: draw number to identifier value.  Extraction
threads a draw counter through every dataclass construction that fires
the `uuid4` default factory. -/
abbrev Gen := Nat → String

/-- `PythonParser._get_visibility_from_name`: naming-convention
visibility. -/
def getVisibilityFromName (name : String) : Visibility :=
  if strStarts name "__" && !(strEnds name "__") then .priv
  else if strStarts name "_" then .prot
  else .pub

/-- `PythonParser._infer_type_from_value`: infer a type from the shape
of an assigned value. -/
def inferTypeFromValue : Expr → TypeReference
  | .constant c => TR (pyTypeName c)
  | .listLit _ => TR "list"
  | .dictLit => TR "dict"
  | .setLit _ => TR "set"
  | .tuple _ => TR "tuple"
  | _ => TR "Any"

/-- `PythonParser._create_attribute_from_assignment`; the Attribute
constructor consumes one `uuid4` draw. -/
def createAttributeFromAssignment (g : Gen) (k : Nat) (name : String)
    (valueNode : Expr) (is_static : Bool) : Attribute × Nat :=
  (⟨name, some (inferTypeFromValue valueNode), g k, getVisibilityFromName name,
    unparse valueNode, is_static⟩, k + 1)

/-- `PythonParser._create_attribute_from_annotated_assignment`. -/
def createAttributeFromAnnotatedAssignment (g : Gen) (k : Nat) (name : String)
    (ann : Expr) (valueNode : Option Expr) (is_static : Bool) : Attribute × Nat :=
  (⟨name, some (parseTypeAnn ann), g k, getVisibilityFromName name,
    valueNode.bind unparse, is_static⟩, k + 1)

/-- The inner target loop of `_extract_class_attributes` for a simple
assignment: one static attribute per `ast.Name` target. -/
def assignTargetsLoop (g : Gen) (k : Nat) (value : Expr) :
    List Expr → List Attribute × Nat
  | [] => ([], k)
  | .name i :: rest =>
    let a := createAttributeFromAssignment g k i value true
    let more := assignTargetsLoop g a.2 value rest
    (a.1 :: more.1, more.2)
  | _ :: rest => assignTargetsLoop g k value rest

/-- `PythonParser._extract_class_attributes`: class-level simple and
annotated assignments become static attributes. -/
def extractClassAttributes (g : Gen) (k : Nat) : List Stmt → List Attribute × Nat
  | [] => ([], k)
  | .assign targets value :: rest =>
    let a1 := assignTargetsLoop g k value targets
    let a2 := extractClassAttributes g a1.2 rest
    (a1.1 ++ a2.1, a2.2)
  | .annAssign tgt ann value :: rest =>
    (match tgt with
     | .name i =>
       let a := createAttributeFromAnnotatedAssignment g k i ann value true
       let a2 := extractClassAttributes g a.2 rest
       (a.1 :: a2.1, a2.2)
     | _ => extractClassAttributes g k rest)
  | _ :: rest => extractClassAttributes g k rest

/-- The inner target loop of `_extract_init_attributes` for a simple
assignment: one non-static attribute per `self.x` target. -/
def initTargetsLoop (g : Gen) (k : Nat) (value : Expr) :
    List Expr → List Attribute × Nat
  | [] => ([], k)
  | tgt :: rest =>
    match tgt with
    | .attr (.name sid) a =>
      if sid = "self" then
        let at1 := createAttributeFromAssignment g k a value false
        let more := initTargetsLoop g at1.2 value rest
        (at1.1 :: more.1, more.2)
      else initTargetsLoop g k value rest
    | _ => initTargetsLoop g k value rest

/-- `PythonParser._extract_init_attributes`: assignments to `self.x`
inside `__init__` become non-static attributes. -/
def extractInitAttributes (g : Gen) (k : Nat) : List Stmt → List Attribute × Nat
  | [] => ([], k)
  | .assign targets value :: rest =>
    let a1 := initTargetsLoop g k value targets
    let a2 := extractInitAttributes g a1.2 rest
    (a1.1 ++ a2.1, a2.2)
  | .annAssign tgt ann value :: rest =>
    (match tgt with
     | .attr (.name sid) a =>
       if sid = "self" then
         let at1 := createAttributeFromAnnotatedAssignment g k a ann value false
         let a2 := extractInitAttributes g at1.2 rest
         (at1.1 :: a2.1, a2.2)
       else extractInitAttributes g k rest
     | _ => extractInitAttributes g k rest)
  | _ :: rest => extractInitAttributes g k rest

/-- `PythonParser._extract_parameter`. -/
def extractParameter (a : Arg) : Parameter :=
  ⟨a.argName, a.ann.map parseTypeAnn⟩

/-- `PythonParser._is_static_method`: scan for a `@staticmethod`
decorator (simple name form only). -/
def isStaticMethodDecs (decs : List Expr) : Bool :=
  decs.any fun d =>
    match d with
    | .name i => i = "staticmethod"
    | _ => false

/-- `PythonParser._is_class_method`: scan for `@classmethod`. -/
def isClassMethodDecs (decs : List Expr) : Bool :=
  decs.any fun d =>
    match d with
    | .name i => i = "classmethod"
    | _ => false

/-- `PythonParser._is_abstract_method`: scan for `@abstractmethod`,
simple or qualified. -/
def isAbstractMethodDecs (decs : List Expr) : Bool :=
  decs.any fun d =>
    match d with
    | .name i => i = "abstractmethod"
    | .attr _ a => a = "abstractmethod"
    | _ => false

/-- Positional decorator-call arguments captured as
`argN ↦ unparsed text` (the `except` branch falls back to the runtime
`str()` of the node, which carries no information the claims use). -/
def decoratorArgsPos : List Expr → Nat → List (String × String)
  | [], _ => []
  | a :: rest, i =>
    ("arg" ++ toString i, (unparse a).getD "<ast object>") :: decoratorArgsPos rest (i + 1)

/-- Keyword decorator-call arguments. -/
def decoratorArgsKw (kws : List (String × Expr)) : List (String × String) :=
  kws.map fun p => (p.1, (unparse p.2).getD "<ast object>")

/-- `PythonParser._extract_decorators`: capture decorators verbatim;
unrecognized shapes are skipped. -/
def extractDecorators : List Expr → List Decorator
  | [] => []
  | .name i :: rest => ⟨i, none, []⟩ :: extractDecorators rest
  | .attr v a :: rest =>
    ⟨a, getModuleFromAttribute (.attr v a), []⟩ :: extractDecorators rest
  | .call f args kws :: rest =>
    (match f with
     | .name i => [(⟨i, none, decoratorArgsPos args 0 ++ decoratorArgsKw kws⟩ : Decorator)]
     | .attr v a =>
       [(⟨a, getModuleFromAttribute (.attr v a),
          decoratorArgsPos args 0 ++ decoratorArgsKw kws⟩ : Decorator)]
     | _ => []) ++ extractDecorators rest
  | _ :: rest => extractDecorators rest

/-- `ast.get_docstring`: the leading string-constant expression
statement of a body, if any (the whitespace cleanup the Python helper
applies is omitted; no claim depends on docstring text). -/
def getDocstring : List Stmt → Option String
  | .exprStmt (.constant (.pyStr s)) :: _ => some s
  | _ => none

/-- `PythonParser._extract_method`; the Method constructor consumes one
`uuid4` draw. -/
def extractMethod (g : Gen) (k : Nat) (fname : String) (args : List Arg)
    (body : List Stmt) (decs : List Expr) (returns : Option Expr) : Method × Nat :=
  let docstring := getDocstring body
  let decorators := extractDecorators decs
  let visibility := getVisibilityFromName fname
  let is_static := isStaticMethodDecs decs
  let is_class_method := isClassMethodDecs decs
  let is_abstract := isAbstractMethodDecs decs
  let params := (if is_static then args else args.drop 1).map extractParameter
  let return_type := returns.map parseTypeAnn
  (⟨fname, g k, params, return_type, visibility, is_static, is_class_method,
    is_abstract, decorators, docstring⟩, k + 1)

/-! ## Class extraction -/

/-- The fields of an `ast.ClassDef` node the extractor reads. -/
structure CDef where
  cname : String
  bases : List Expr
  body : List Stmt
  decs : List Expr

/-- The base-class loop of `PythonParser._extract_class`: collect base
names and the abstract flag.  Simple names are compared exactly against
`ABC`/`ABCMeta`; dotted bases are tested for `ABC` as a substring of
the full dotted name. -/
def basesLoop : List Expr → List String × Bool
  | [] => ([], false)
  | b :: rest =>
    let (bs, ab) := basesLoop rest
    match b with
    | .name i => (i :: bs, (i = "ABC" || i = "ABCMeta") || ab)
    | .attr v a =>
      let bn := getAttributeName (.attr v a)
      (bn :: bs, containsSub bn "ABC" || ab)
    | _ => (bs, ab)

/-- The method loop of `PythonParser._extract_class`: extract each
function definition as a method and, for `__init__`, additionally the
instance attributes assigned inside it. -/
def classBodyLoop (g : Gen) (k : Nat) : List Stmt → List Method × List Attribute × Nat
  | [] => ([], [], k)
  | .functionDef fn args fbody decs rets :: rest =>
    let m := extractMethod g k fn args fbody decs rets
    let ia :=
      if fn = "__init__" then extractInitAttributes g m.2 fbody else ([], m.2)
    let tl := classBodyLoop g ia.2 rest
    (m.1 :: tl.1, ia.1 ++ tl.2.1, tl.2.2)
  | _ :: rest => classBodyLoop g k rest

/-- `PythonParser._extract_class`.  The `Class` dataclass consumes one
`uuid4` draw for its `id` default, which `__post_init__` immediately
overwrites with the deterministic uuid5 of the class name. -/
def extractClass (g : Gen) (k : Nat) (cd : CDef) : Class × Nat :=
  let docstring := getDocstring cd.body
  let decorators := extractDecorators cd.decs
  let bi := basesLoop cd.bases
  let ca := extractClassAttributes g k cd.body
  let bl := classBodyLoop g ca.2 cd.body
  (⟨cd.cname, generate_deterministic_uuid cd.cname, ca.1 ++ bl.2.1,
    bl.1, decorators, bi.1, bi.2, docstring⟩, bl.2.2 + 1)

mutual

/-- Weight of one statement: one plus the weight of any nested body,
the decreasing measure of the AST walk. -/
def stmtW : Stmt → Nat
  | .assign _ _ => 1
  | .annAssign _ _ _ => 1
  | .functionDef _ _ body _ _ => 1 + stmtsW body
  | .classDef _ _ body _ => 1 + stmtsW body
  | .exprStmt _ => 1
  | .passStmt => 1

/-- Total weight of a statement queue. -/
def stmtsW : List Stmt → Nat
  | [] => 0
  | s :: rest => stmtW s + stmtsW rest

end

/-- `ast.walk` restricted to `ClassDef` nodes: breadth-first traversal
of the statement tree, emitting class definitions in the order
`parse_source` sees them. -/
def walkClasses : List Stmt → List CDef
  | [] => []
  | .classDef n b body d :: rest => ⟨n, b, body, d⟩ :: walkClasses (rest ++ body)
  | .functionDef _ _ body _ _ :: rest => walkClasses (rest ++ body)
  | .assign _ _ :: rest => walkClasses rest
  | .annAssign _ _ _ :: rest => walkClasses rest
  | .exprStmt _ :: rest => walkClasses rest
  | .passStmt :: rest => walkClasses rest
termination_by l => stmtsW l
decreasing_by
  all_goals
    (have happ : ∀ a b : List Stmt, stmtsW (a ++ b) = stmtsW a + stmtsW b := by
       intro a b
       induction a with
       | nil => simp [stmtsW]
       | cons s t ih => simp [stmtsW, ih]; omega
     simp only [stmtsW, stmtW, happ]
     omega)

/-- The class-extraction loop of `PythonParser.parse_source`. -/
def extractClassesLoop (g : Gen) (k : Nat) : List CDef → List Class × Nat
  | [] => ([], k)
  | cd :: rest =>
    let c := extractClass g k cd
    let cs := extractClassesLoop g c.2 rest
    (c.1 :: cs.1, cs.2)

/-! ## Relationship inference -/

/-- Lookup in the `name → id` dict (last binding wins, as in a Python
dict comprehension); total with `""` default since every call site is
guarded by a membership test. -/
def classMapFind (m : List (String × String)) (key : String) : String :=
  match m.reverse.find? (fun p => p.1 == key) with
  | some p => p.2
  | none => ""

/-- `PythonParser._get_base_type_name`: recursively unwrap the first
type argument. -/
def getBaseTypeName : TypeReference → String
  | ⟨n, _, [], _⟩ => n
  | ⟨_, _, a :: _, _⟩ => getBaseTypeName a

/-- The fixed collection-name table of
`PythonParser._is_collection_type`. -/
def collection_types : List String :=
  ["List", "list", "Set", "set", "Dict", "dict", "Tuple", "tuple",
   "Sequence", "Iterable"]

/-- `PythonParser._is_collection_type`: outer type name membership in
the fixed table. -/
def isCollectionType (t : TypeReference) : Bool :=
  collection_types.contains t.name

/-- The base-class loop of `PythonParser._infer_inheritance`. -/
def inheritanceLoop (g : Gen) (k : Nat) (srcId : String) (names : List String)
    (cmap : List (String × String)) : List String → List Relationship × Nat
  | [] => ([], k)
  | b :: rest =>
    if names.contains b then
      let rel : Relationship :=
        ⟨.inheritance, srcId, classMapFind cmap b, g k, some "derived", some "base"⟩
      let rs := inheritanceLoop g (k + 1) srcId names cmap rest
      (rel :: rs.1, rs.2)
    else inheritanceLoop g k srcId names cmap rest

/-- `PythonParser._infer_inheritance`. -/
def inferInheritance (g : Gen) (k : Nat) (cls : Class) (names : List String)
    (cmap : List (String × String)) : List Relationship × Nat :=
  inheritanceLoop g k cls.id names cmap cls.base_classes

/-- The attribute loop of
`PythonParser._infer_composition_aggregation`. -/
def compAggLoop (g : Gen) (k : Nat) (srcId : String) (names : List String)
    (cmap : List (String × String)) : List Attribute → List Relationship × Nat
  | [] => ([], k)
  | a :: rest =>
    match a.type with
    | none => compAggLoop g k srcId names cmap rest
    | some t =>
      let tn := getBaseTypeName t
      if names.contains tn then
        let rel : Relationship :=
          if isCollectionType t || t.is_optional then
            ⟨.aggregation, srcId, classMapFind cmap tn, g k, some "has", none⟩
          else
            ⟨.composition, srcId, classMapFind cmap tn, g k, some "owns", none⟩
        let rs := compAggLoop g (k + 1) srcId names cmap rest
        (rel :: rs.1, rs.2)
      else compAggLoop g k srcId names cmap rest

/-- `PythonParser._infer_composition_aggregation`. -/
def inferCompositionAggregation (g : Gen) (k : Nat) (cls : Class)
    (names : List String) (cmap : List (String × String)) : List Relationship × Nat :=
  compAggLoop g k cls.id names cmap cls.attributes

/-- The `attribute_types` set of `PythonParser._infer_dependencies`
(membership-equivalent list form). -/
def attributeTypesOf (cls : Class) : List String :=
  cls.attributes.filterMap (fun a => a.type.map getBaseTypeName)

/-- `set.add`: append the name unless already present (insertion-order
model of the Python set; only membership and cardinality of the result
are claim-relevant, set iteration order is interpreter-dependent). -/
def addDep (deps : List String) (n : String) : List String :=
  if deps.contains n then deps else deps ++ [n]

/-- The parameter loop of `PythonParser._infer_dependencies`:
parameters literally named `self` or `cls` are skipped. -/
def depParamLoop (names attrTypes : List String) (deps : List String) :
    List Parameter → List String
  | [] => deps
  | p :: rest =>
    if p.name = "self" || p.name = "cls" then
      depParamLoop names attrTypes deps rest
    else
      match p.type with
      | none => depParamLoop names attrTypes deps rest
      | some t =>
        let tn := getBaseTypeName t
        if names.contains tn && !(attrTypes.contains tn) then
          depParamLoop names attrTypes (addDep deps tn) rest
        else
          depParamLoop names attrTypes deps rest

/-- The method loop of `PythonParser._infer_dependencies`: parameters
then the return type. -/
def depMethodLoop (names attrTypes : List String) (deps : List String) :
    List Method → List String
  | [] => deps
  | m :: rest =>
    let d1 := depParamLoop names attrTypes deps m.parameters
    let d2 :=
      match m.return_type with
      | none => d1
      | some t =>
        let tn := getBaseTypeName t
        if names.contains tn && !(attrTypes.contains tn) then addDep d1 tn else d1
    depMethodLoop names attrTypes d2 rest

/-- The `dependencies` set `PythonParser._infer_dependencies` collects
for one class. -/
def collectDeps (cls : Class) (names : List String) : List String :=
  depMethodLoop names (attributeTypesOf cls) [] cls.methods

/-- The emission loop of `PythonParser._infer_dependencies`. -/
def depRelLoop (g : Gen) (k : Nat) (srcId : String)
    (cmap : List (String × String)) : List String → List Relationship × Nat
  | [] => ([], k)
  | n :: rest =>
    let rel : Relationship :=
      ⟨.dependency, srcId, classMapFind cmap n, g k, some "uses", none⟩
    let rs := depRelLoop g (k + 1) srcId cmap rest
    (rel :: rs.1, rs.2)

/-- `PythonParser._infer_dependencies`. -/
def inferDependencies (g : Gen) (k : Nat) (cls : Class) (names : List String)
    (cmap : List (String × String)) : List Relationship × Nat :=
  depRelLoop g k cls.id cmap (collectDeps cls names)

/-- The per-class loop of `PythonParser._infer_relationships`:
inheritance, then composition/aggregation, then dependency for each
class in turn. -/
def relLoop (g : Gen) (k : Nat) (names : List String)
    (cmap : List (String × String)) : List Class → List Relationship × Nat
  | [] => ([], k)
  | c :: rest =>
    let r1 := inferInheritance g k c names cmap
    let r2 := inferCompositionAggregation g r1.2 c names cmap
    let r3 := inferDependencies g r2.2 c names cmap
    let rs := relLoop g r3.2 names cmap rest
    (r1.1 ++ r2.1 ++ r3.1 ++ rs.1, rs.2)

/-- `PythonParser._infer_relationships`: build the name lookup over all
classes, then run the passes. -/
def inferRelationships (g : Gen) (k : Nat) (classes : List Class) :
    List Relationship × Nat :=
  relLoop g k (classes.map (fun c => c.name))
    (classes.map (fun c => (c.name, c.id))) classes

/-! ## Assembly (`PythonParser.parse_source`) -/

/-- `pathlib.Path(p).stem`: final path component without its last
suffix. -/
def pathStem (p : String) : String :=
  let base := (p.splitOn "/").getLastD p
  let parts := base.splitOn "."
  if parts.length ≤ 1 then base
  else if parts.dropLast = [""] then base
  else String.intercalate "." parts.dropLast

/-- `PythonParser.parse_source`.  The `ast.parse` step is external to
the extractor and is supplied as an `Except`: `.error e` models a
`SyntaxError` with message `e`, `.ok tree` a successfully parsed
module.  A syntax error aborts the whole call with a message naming the
unit; otherwise a complete `Package` is assembled (the `Package`
constructor consumes the final `uuid4` draw). -/
def parseSource (g : Gen) (k : Nat) (parsed : Except String Module)
    (source_name : String) : Except String Package :=
  match parsed with
  | .error e => .error ("Syntax error in " ++ source_name ++ ": " ++ e)
  | .ok tree =>
    let ec := extractClassesLoop g k (walkClasses tree.body)
    let ir := inferRelationships g ec.2 ec.1
    let package_name := if source_name ≠ "<string>" then pathStem source_name else "parsed"
    .ok ⟨package_name, g ir.2, ec.1, ir.1, getDocstring tree.body⟩

/-! ## Identity scrubbing

Erasing exactly the identifier fields whose dataclass default is a
fresh `uuid4` draw (Attribute.id, Method.id, Relationship.id,
Package.id).  Class.id is kept: it is the deterministic uuid5. -/

/-- Erase the `uuid4`-assigned id of an attribute. -/
def scrubAttribute (a : Attribute) : Attribute := { a with id := "" }

/-- Erase the `uuid4`-assigned id of a method. -/
def scrubMethod (m : Method) : Method := { m with id := "" }

/-- Erase the `uuid4`-assigned ids inside a class (its own id is the
deterministic uuid5 and is kept). -/
def scrubClass (c : Class) : Class :=
  { c with attributes := c.attributes.map scrubAttribute,
           methods := c.methods.map scrubMethod }

/-- Erase the `uuid4`-assigned id of a relationship. -/
def scrubRel (r : Relationship) : Relationship := { r with id := "" }

/-- Erase every `uuid4`-assigned id in a package. -/
def scrubPackage (p : Package) : Package :=
  { p with id := "",
           classes := p.classes.map scrubClass,
           relationships := p.relationships.map scrubRel }

/-! ## Specification-side definitions

Each `spec…` definition below transcribes the words of a claim (not the
code) and is used to compare the code embedding against the claim. -/

/-- From the C2 claim text: for an attribute whose base type name is a
known class, exactly one relationship, `aggregation` if the resolved
type is optional or its outer name is a recognized collection name,
`composition` otherwise; no relationship for other attributes. -/
def specCompAggRelFor (srcId : String) (names : List String)
    (cmap : List (String × String)) (a : Attribute) : Option Relationship :=
  match a.type with
  | none => none
  | some t =>
    if names.contains (getBaseTypeName t) then
      some ⟨(if t.is_optional || isCollectionType t then .aggregation else .composition),
            srcId, classMapFind cmap (getBaseTypeName t), "",
            some (if t.is_optional || isCollectionType t then "has" else "owns"), none⟩
    else none

/-- Whether an attribute of a class matches the C2 emission condition
(base type name known in the unit). -/
def attrMatchesKnown (names : List String) (a : Attribute) : Bool :=
  match a.type with
  | none => false
  | some t => names.contains (getBaseTypeName t)

/-- A parameter list references the name through a parameter whose
base type name is the name, excluding parameters literally named `self`
or `cls` (the exclusion the dependency pass implements). -/
def paramRefs (ps : List Parameter) (n : String) : Bool :=
  ps.any (fun p =>
    !(p.name = "self" || p.name = "cls") &&
    (match p.type with
     | some t => getBaseTypeName t = n
     | none => false))

/-- From the C5 claim text: a parameter list references the name
through any parameter type (no exclusions). -/
def specParamRefs (ps : List Parameter) (n : String) : Bool :=
  ps.any (fun p =>
    match p.type with
    | some t => getBaseTypeName t = n
    | none => false)

/-- The return type references the name. -/
def returnRefs (m : Method) (n : String) : Bool :=
  match m.return_type with
  | some t => getBaseTypeName t = n
  | none => false

/-- From the C5 claim text: the name is referenced by some parameter
type or the return type of the method (no exclusions). -/
def specMethodReferences (m : Method) (n : String) : Bool :=
  specParamRefs m.parameters n || returnRefs m n

/-- From the C5 claim text: some method of the class references the
name. -/
def specClassReferences (cls : Class) (n : String) : Bool :=
  cls.methods.any (fun m => specMethodReferences m n)

/-- The reference condition the code actually implements: as the claim,
except that parameters literally named `self` or `cls` are skipped. -/
def codeMethodReferences (m : Method) (n : String) : Bool :=
  paramRefs m.parameters n || returnRefs m n

/-- Some method of the class references the name, under the code
condition (self/cls-named parameters excluded). -/
def codeClassReferences (cls : Class) (n : String) : Bool :=
  cls.methods.any (fun m => codeMethodReferences m n)

/-- The concrete two-class input of the C5 counterexample: a class `U`
whose only method has a single `Department`-typed parameter that is
literally named `cls`, next to an otherwise empty class `Department`. -/
def c5ExampleClass : Class :=
  ⟨"U", "idU", [],
   [⟨"g", "mid", [⟨"cls", some (TR "Department")⟩], none, .pub, false, false,
     false, [], none⟩],
   [], [], false, none⟩

/-- A concrete supply of distinguishable draw values, used by the
counterexamples. -/
def gEx : Gen := fun n => "u" ++ toString n

/-- A second concrete supply, disjoint from `gEx`. -/
def gEx2 : Gen := fun n => "w" ++ toString n

/-- The concrete two-class input of the C7 counterexample: class `A`
with a method taking a `B`-typed parameter (a dependency A to B) and
class `B` inheriting from `A`. -/
def c7ClassA : Class :=
  ⟨"A", "idA", [],
   [⟨"f", "mf", [⟨"x", some (TR "B")⟩], none, .pub, false, false, false, [],
     none⟩],
   [], [], false, none⟩

/-- Companion class of the C7 counterexample. -/
def c7ClassB : Class :=
  ⟨"B", "idB", [], [], [], ["A"], false, none⟩

/-- The abstractness condition the base-class loop actually implements:
a simple-name base equal to `ABC` or `ABCMeta`, or a dotted base whose
full dotted name contains `ABC` as a substring. -/
def codeAbstractBase : Expr → Bool
  | .name i => i = "ABC" || i = "ABCMeta"
  | .attr v a => containsSub (getAttributeName (.attr v a)) "ABC"
  | _ => false

/-- From the C6 claim text: a base name textually is, or ends with, a
recognized abstract-base marker name (`ABC` / `ABCMeta`). -/
def specAbstractMarker (baseName : String) : Bool :=
  baseName == "ABC" || baseName == "ABCMeta" ||
  strEnds baseName "ABC" || strEnds baseName "ABCMeta"

/-- From the C7 claim text: the three passes' outputs concatenated
phase by phase — all inheritance first, then all
composition/aggregation, then all dependency, each per source class in
input order (compared after scrubbing the random relationship ids). -/
def specPhaseOrderedRels (g : Gen) (classes : List Class) : List Relationship :=
  let names := classes.map (fun c => c.name)
  let cmap := classes.map (fun c => (c.name, c.id))
  (classes.map (fun c => (inferInheritance g 0 c names cmap).1.map scrubRel)).flatten
  ++ (classes.map (fun c => (inferCompositionAggregation g 0 c names cmap).1.map scrubRel)).flatten
  ++ (classes.map (fun c => (inferDependencies g 0 c names cmap).1.map scrubRel)).flatten

/-- The annotation shapes `_parse_type_annotation` recognizes with a
dedicated branch; everything else falls to the unparse fallback. -/
def isRecognizedAnnShape : Expr → Bool
  | .name _ => true
  | .constant _ => true
  | .subscript _ _ => true
  | .binOpOr _ _ => true
  | .attr _ _ => true
  | _ => false

/-- The inheritance pass for one class with the random relationship ids
erased, as a pure function of the base-name list. -/
def inhScrub (srcId : String) (names : List String)
    (cmap : List (String × String)) (bs : List String) : List Relationship :=
  bs.filterMap (fun b =>
    if names.contains b then
      some ⟨.inheritance, srcId, classMapFind cmap b, "", some "derived",
        some "base"⟩
    else none)

/-- All relationships one class contributes, in the order the per-class
loop emits them (inheritance, then composition/aggregation, then
dependency), with the random relationship ids erased. -/
def classRelsScrub (names : List String) (cmap : List (String × String))
    (c : Class) : List Relationship :=
  inhScrub c.id names cmap c.base_classes
  ++ c.attributes.filterMap (specCompAggRelFor c.id names cmap)
  ++ (collectDeps c names).map (fun n =>
      (⟨.dependency, c.id, classMapFind cmap n, "", some "uses", none⟩ :
        Relationship))

/-! ## Shared helper lemmas -/

/-- A two-character prefix implies the one-character prefix. -/
theorem isPrefixOf_pair_tail (c : Char) (l : List Char)
    (h : [c, c].isPrefixOf l = true) : [c].isPrefixOf l = true := by
  cases l with
  | nil => simp [List.isPrefixOf] at h
  | cons d rest =>
    simp only [List.isPrefixOf, Bool.and_eq_true] at h ⊢
    exact ⟨h.1, by simp [List.isPrefixOf]⟩

/-- A name starting with a double underscore starts with a single
underscore. -/
theorem strStarts_double_single (name : String)
    (h : strStarts name "__" = true) : strStarts name "_" = true := by
  simp only [strStarts] at h ⊢
  have e1 : ("__".toList : List Char) = ['_', '_'] := rfl
  have e2 : ("_".toList : List Char) = ['_'] := rfl
  rw [e1] at h
  rw [e2]
  exact isPrefixOf_pair_tail '_' name.toList h

/-! ## Claim theorems -/

/-- C10: a member name with both a double leading underscore and a
double trailing underscore (a dunder name) gets visibility `protected`
— not public and not private; a name with a double leading underscore
and no double trailing underscore is `private`. -/
theorem dunder_visibility_protected (name : String) :
    (strStarts name "__" = true ∧ strEnds name "__" = true →
      getVisibilityFromName name = .prot) ∧
    (strStarts name "__" = true ∧ strEnds name "__" = false →
      getVisibilityFromName name = .priv) := by
  constructor
  · rintro ⟨h1, h2⟩
    unfold getVisibilityFromName
    rw [h1, h2, strStarts_double_single name h1]
    simp
  · rintro ⟨h1, h2⟩
    unfold getVisibilityFromName
    rw [h1, h2]
    simp

/-- Witness for C10 at the concrete names `__init__` (dunder, hence
protected) and `__secret` (double leading underscore only, hence
private). -/
theorem dunder_visibility_protected_witness :
    getVisibilityFromName "__init__" = .prot ∧
    getVisibilityFromName "__secret" = .priv :=
  ⟨(dunder_visibility_protected "__init__").1 ⟨by decide, by decide⟩,
   (dunder_visibility_protected "__secret").2 ⟨by decide, by decide⟩⟩

/-- C9: a syntax error makes the single-unit extraction fail with a
descriptive error naming the offending unit, and nothing partial is
returned; any parsable source yields a complete package. -/
theorem parse_source_error_handling (g : Gen) (k : Nat) (source_name : String) :
    (∀ e : String, parseSource g k (.error e) source_name =
      .error ("Syntax error in " ++ source_name ++ ": " ++ e)) ∧
    (∀ m : Module, ∃ pkg : Package, parseSource g k (.ok m) source_name = .ok pkg) :=
  ⟨fun _ => rfl, fun _ => ⟨_, rfl⟩⟩

/-- C8: annotation resolution is total, and every expression shape
without a dedicated branch resolves to the best-effort textual
rendering of the expression, or the literal name `Any` when no
rendering is available. -/
theorem type_resolution_fallback (e : Expr) (h : isRecognizedAnnShape e = false) :
    parseTypeAnn e = TR ((unparse e).getD "Any") := by
  cases e <;> simp [isRecognizedAnnShape] at h <;>
    (simp only [parseTypeAnn]
     generalize unparse _ = u
     cases u <;> simp)

/-- Witness for C8 at a concrete unrenderable expression. -/
theorem type_resolution_fallback_witness :
    isRecognizedAnnShape (.other none) = false ∧
    parseTypeAnn (.other none) = TR "Any" := by
  refine ⟨rfl, ?_⟩
  have h := type_resolution_fallback (.other none) rfl
  simpa [unparse] using h

/-- C3: resolving `Optional[Department]` and resolving
`Department | None` give equal descriptors: name `Department`, optional,
no type arguments. -/
theorem optional_union_round_trip :
    parseTypeAnn (.subscript (.name "Optional") (.name "Department")) =
      parseTypeAnn (.binOpOr (.name "Department") (.constant .pyNone)) ∧
    parseTypeAnn (.subscript (.name "Optional") (.name "Department")) =
      ⟨"Department", none, [], true⟩ := by
  constructor <;>
    simp [parseTypeAnn, parseSubscriptType, parseUnionType, collectUnionTypes,
      parseAnnList, TR, pyStrOf, List.filter]

/-- Counterexample to C4 as stated: the infix union `int | str` resolves
to the name `"int | str"`, not the subscripted-Union synthetic form
`"Union[int, str]"`; moreover adding `None` changes the name to
`"int | str | None"`, so the result is not independent of whether `None`
was among the operands. -/
theorem infix_union_name_counterexample :
    (parseTypeAnn (.binOpOr (.name "int") (.name "str"))).name = "int | str" ∧
    (parseTypeAnn (.subscript (.name "Union")
      (.tuple [.name "int", .name "str"]))).name = "Union[int, str]" ∧
    (parseTypeAnn (.binOpOr (.binOpOr (.name "int") (.name "str"))
      (.constant .pyNone))).name = "int | str | None" ∧
    ("int | str" : String) ≠ "Union[int, str]" ∧
    ("int | str | None" : String) ≠ "int | str" := by
  refine ⟨?_, ?_, ?_, by decide, by decide⟩ <;>
    (simp only [parseTypeAnn, parseSubscriptType, parseUnionType, collectUnionTypes,
       parseAnnList]
     decide)

/-- C4 amended: for an infix union with more than one non-None operand,
the resolved descriptor is named by the `" | "`-joined renderings of all
operands (including `None` when present), with no optional flag and no
type arguments — not the `"Union[...]"` synthetic form. -/
theorem infix_union_multi_operand_name (l r : Expr)
    (h : 2 ≤ ((collectUnionTypes l ++ collectUnionTypes r).filter
          (fun t => t.name ≠ "None")).length) :
    parseTypeAnn (.binOpOr l r) =
      TR (String.intercalate " | "
        (trStrList (collectUnionTypes l ++ collectUnionTypes r))) := by
  rw [parseTypeAnn, parseUnionType]
  rcases hnn : (collectUnionTypes l ++ collectUnionTypes r).filter
      (fun t => t.name ≠ "None") with _ | ⟨t1, _ | ⟨t2, rest⟩⟩
  · rw [hnn] at h; simp at h
  · rw [hnn] at h; simp at h
  · by_cases hn : (collectUnionTypes l ++ collectUnionTypes r).any
        (fun t => t.name = "None")
    · simp only [hn, if_true, hnn]
    · simp [hn]

/-- Witness for the amended C4 at the concrete union `int | str`. -/
theorem infix_union_multi_operand_name_witness :
    2 ≤ ((collectUnionTypes (.name "int") ++ collectUnionTypes (.name "str")).filter
          (fun t => t.name ≠ "None")).length ∧
    parseTypeAnn (.binOpOr (.name "int") (.name "str")) =
      TR (String.intercalate " | "
        (trStrList (collectUnionTypes (.name "int") ++ collectUnionTypes (.name "str")))) := by
  have hh : 2 ≤ ((collectUnionTypes (.name "int") ++
      collectUnionTypes (.name "str")).filter
        (fun t => t.name ≠ "None")).length := by
    simp [collectUnionTypes, parseTypeAnn, TR, List.filter]
  exact ⟨hh, infix_union_multi_operand_name _ _ hh⟩

/-- The composition/aggregation pass, scrubbed of its random
relationship ids, is the filterMap of the per-attribute rule over the
attribute list. -/
theorem compAggLoop_scrub (g : Gen) (s : String) (names : List String)
    (cmap : List (String × String)) :
    ∀ (attrs : List Attribute) (k : Nat),
      ((compAggLoop g k s names cmap attrs).1).map scrubRel
        = attrs.filterMap (specCompAggRelFor s names cmap) := by
  intro attrs
  induction attrs with
  | nil => intro k; rfl
  | cons a rest ih =>
    intro k
    cases ht : a.type with
    | none => simp [compAggLoop, ht, specCompAggRelFor, List.filterMap_cons, ih]
    | some t =>
      by_cases hc : getBaseTypeName t ∈ names
      · cases hco : isCollectionType t <;> cases hop : t.is_optional <;>
          simp [compAggLoop, ht, hc, hco, hop, specCompAggRelFor, scrubRel,
            List.filterMap_cons, ih]
      · simp [compAggLoop, ht, hc, specCompAggRelFor, List.filterMap_cons, ih]

/-- The composition/aggregation pass emits exactly one relationship per
attribute whose base type name is known, and none otherwise. -/
theorem compAggLoop_length (g : Gen) (s : String) (names : List String)
    (cmap : List (String × String)) :
    ∀ (attrs : List Attribute) (k : Nat),
      ((compAggLoop g k s names cmap attrs).1).length
        = (attrs.filter (attrMatchesKnown names)).length := by
  intro attrs
  induction attrs with
  | nil => intro k; rfl
  | cons a rest ih =>
    intro k
    cases ht : a.type with
    | none => simp [compAggLoop, ht, attrMatchesKnown, ih]
    | some t =>
      by_cases hc : getBaseTypeName t ∈ names
      · cases hco : isCollectionType t <;> cases hop : t.is_optional <;>
          simp [compAggLoop, ht, hc, hco, hop, attrMatchesKnown, ih]
      · simp [compAggLoop, ht, hc, attrMatchesKnown, ih]

/-- C2: for every attribute whose base type name is a known class name
the pass emits exactly one relationship — never zero, never more than
one — whose kind is aggregation when the resolved type is optional or
its outer name is a recognized collection name, and composition
otherwise; attributes without a known base type contribute nothing. -/
theorem composition_aggregation_per_attribute (g : Gen) (k : Nat) (cls : Class)
    (names : List String) (cmap : List (String × String)) :
    ((inferCompositionAggregation g k cls names cmap).1).map scrubRel
      = cls.attributes.filterMap (specCompAggRelFor cls.id names cmap) ∧
    ((inferCompositionAggregation g k cls names cmap).1).length
      = (cls.attributes.filter (attrMatchesKnown names)).length :=
  ⟨compAggLoop_scrub g cls.id names cmap cls.attributes k,
   compAggLoop_length g cls.id names cmap cls.attributes k⟩

/-- The abstract flag computed by the base-class loop is the disjunction
of the per-base code condition. -/
theorem basesLoop_abstract_flag (bs : List Expr) :
    (basesLoop bs).2 = bs.any codeAbstractBase := by
  induction bs with
  | nil => rfl
  | cons b rest ih =>
    cases b <;> simp [basesLoop, codeAbstractBase, ih]

/-- Counterexample to C6 as stated: the simple base name `MyABC` ends
with the marker `ABC`, so the claim says the class is abstract, but the
extractor compares simple names only for equality with `ABC`/`ABCMeta`
and leaves the flag unset; conversely the dotted base `x.ABCdef`
neither is nor ends with a marker, yet the extractor flags it abstract
because `ABC` occurs as a substring of the dotted name. -/
theorem abstract_flag_counterexample :
    ((extractClass (fun n => "u" ++ toString n) 0
        ⟨"C", [.name "MyABC"], [], []⟩).1).is_abstract = false ∧
    specAbstractMarker "MyABC" = true ∧
    ((extractClass (fun n => "u" ++ toString n) 0
        ⟨"D", [.attr (.name "x") "ABCdef"], [], []⟩).1).is_abstract = true ∧
    specAbstractMarker "x.ABCdef" = false := by
  refine ⟨by decide, by decide, by decide, by decide⟩

/-- C6 amended: the extracted class is flagged abstract if and only if
some base that is a simple identifier is exactly `ABC` or `ABCMeta`, or
some base that is a dotted reference contains `ABC` as a substring of
its full dotted name. -/
theorem abstract_flag_characterization (g : Gen) (k : Nat) (cd : CDef) :
    ((extractClass g k cd).1).is_abstract = cd.bases.any codeAbstractBase :=
  basesLoop_abstract_flag cd.bases

/-- Membership after one set `add`: the old members plus the added
name. -/
theorem addDep_mem (deps : List String) (x n : String) :
    n ∈ addDep deps x ↔ n ∈ deps ∨ n = x := by
  unfold addDep
  by_cases hb : deps.contains x = true
  · rw [if_pos hb]
    have hx : x ∈ deps := by simpa using hb
    exact ⟨Or.inl, fun h2 => h2.elim id (fun he => he ▸ hx)⟩
  · rw [if_neg hb]
    simp

/-- `addDep` preserves distinctness. -/
theorem addDep_nodup (deps : List String) (x : String) (h : deps.Nodup) :
    (addDep deps x).Nodup := by
  unfold addDep
  by_cases hb : deps.contains x = true
  · rwa [if_pos hb]
  · rw [if_neg hb]
    have hx : x ∉ deps := by simpa using hb
    rw [List.nodup_append]
    refine ⟨h, List.nodup_singleton x, ?_⟩
    intro a ha hb2
    simp only [List.mem_singleton] at hb2
    subst hb2
    exact hx ha

/-- One unfolding step of the parameter-reference test. -/
theorem paramRefs_cons (p : Parameter) (rest : List Parameter) (n : String) :
    paramRefs (p :: rest) n =
      (((!(p.name = "self" || p.name = "cls")) &&
        (match p.type with
         | some t => decide (getBaseTypeName t = n)
         | none => false)) || paramRefs rest n) := by
  simp [paramRefs, List.any_cons]

/-- Membership characterization of the parameter loop of the dependency
pass: the names already collected, plus any base type name of a
non-`self`/`cls`-named parameter that is known and not an attribute
type. -/
theorem depParamLoop_mem (names attrTypes : List String) (n : String) :
    ∀ (ps : List Parameter) (deps : List String),
      n ∈ depParamLoop names attrTypes deps ps ↔
        n ∈ deps ∨ (paramRefs ps n = true ∧ n ∈ names ∧ n ∉ attrTypes) := by
  intro ps
  induction ps with
  | nil => intro deps; simp [depParamLoop, paramRefs]
  | cons p rest ih =>
    intro deps
    simp only [depParamLoop]
    by_cases hskip : (p.name = "self" ∨ p.name = "cls")
    · rw [if_pos (by simpa using hskip)]
      rw [ih]
      simp [paramRefs_cons, hskip]
      tauto
    · rw [if_neg (by simpa using hskip)]
      cases hty : p.type with
      | none =>
        simp only [hty]
        rw [ih]
        simp [paramRefs_cons, hty]
      | some t =>
        simp only [hty]
        by_cases h12 : getBaseTypeName t ∈ names ∧ getBaseTypeName t ∉ attrTypes
        · rw [if_pos (by simpa using h12)]
          rw [ih, addDep_mem]
          simp [paramRefs_cons, hskip, hty]
          obtain ⟨h1, h2⟩ := h12
          constructor
          · rintro ((h | rfl) | h)
            · tauto
            · tauto
            · tauto
          · rintro (h | ⟨(⟨hn1, rfl⟩ | hr), hn2, hn3⟩)
            · tauto
            · tauto
            · tauto
        · rw [if_neg (by simpa using h12)]
          rw [ih]
          simp [paramRefs_cons, hskip, hty]
          constructor
          · tauto
          · rintro (h | ⟨(⟨hn1, rfl⟩ | hr), hn2, hn3⟩)
            · tauto
            · exact absurd ⟨hn2, hn3⟩ h12
            · tauto

/-- Membership characterization of the method loop of the dependency
pass: the names already collected, plus any name referenced (under the
code condition) by some method, known, and not an attribute type. -/
theorem depMethodLoop_mem (names attrTypes : List String) (n : String) :
    ∀ (ms : List Method) (deps : List String),
      n ∈ depMethodLoop names attrTypes deps ms ↔
        n ∈ deps ∨ ((ms.any fun m => codeMethodReferences m n) = true ∧
          n ∈ names ∧ n ∉ attrTypes) := by
  intro ms
  induction ms with
  | nil => intro deps; simp [depMethodLoop]
  | cons m rest ih =>
    intro deps
    simp only [depMethodLoop]
    rw [ih]
    cases hret : m.return_type with
    | none =>
      simp only [hret]
      rw [depParamLoop_mem]
      simp only [List.any_cons, Bool.or_eq_true, codeMethodReferences,
        returnRefs, hret, Bool.false_eq_true, or_false, false_or]
      constructor
      · rintro ((h | ⟨hp, hn2, hn3⟩) | ⟨hr, hn2, hn3⟩)
        · exact Or.inl h
        · exact Or.inr ⟨Or.inl hp, hn2, hn3⟩
        · exact Or.inr ⟨Or.inr hr, hn2, hn3⟩
      · rintro (h | ⟨(hp | hr), hn2, hn3⟩)
        · exact Or.inl (Or.inl h)
        · exact Or.inl (Or.inr ⟨hp, hn2, hn3⟩)
        · exact Or.inr ⟨hr, hn2, hn3⟩
    | some t =>
      simp only [hret]
      by_cases h12 : getBaseTypeName t ∈ names ∧ getBaseTypeName t ∉ attrTypes
      · rw [if_pos (by simpa using h12)]
        rw [addDep_mem, depParamLoop_mem]
        simp only [List.any_cons, Bool.or_eq_true, codeMethodReferences,
          returnRefs, hret, decide_eq_true_eq]
        obtain ⟨h1, h2⟩ := h12
        constructor
        · rintro (((h | ⟨hp, hn2, hn3⟩) | rfl) | ⟨hr, hn2, hn3⟩)
          · exact Or.inl h
          · exact Or.inr ⟨Or.inl (Or.inl hp), hn2, hn3⟩
          · exact Or.inr ⟨Or.inl (Or.inr rfl), h1, h2⟩
          · exact Or.inr ⟨Or.inr hr, hn2, hn3⟩
        · rintro (h | ⟨((hp | rfl) | hr), hn2, hn3⟩)
          · exact Or.inl (Or.inl (Or.inl h))
          · exact Or.inl (Or.inl (Or.inr ⟨hp, hn2, hn3⟩))
          · exact Or.inl (Or.inr rfl)
          · exact Or.inr ⟨hr, hn2, hn3⟩
      · rw [if_neg (by simpa using h12)]
        rw [depParamLoop_mem]
        simp only [List.any_cons, Bool.or_eq_true, codeMethodReferences,
          returnRefs, hret, decide_eq_true_eq]
        constructor
        · rintro ((h | ⟨hp, hn2, hn3⟩) | ⟨hr, hn2, hn3⟩)
          · exact Or.inl h
          · exact Or.inr ⟨Or.inl (Or.inl hp), hn2, hn3⟩
          · exact Or.inr ⟨Or.inr hr, hn2, hn3⟩
        · rintro (h | ⟨((hp | rfl) | hr), hn2, hn3⟩)
          · exact Or.inl (Or.inl h)
          · exact Or.inl (Or.inr ⟨hp, hn2, hn3⟩)
          · exact absurd ⟨hn2, hn3⟩ h12
          · exact Or.inr ⟨hr, hn2, hn3⟩

/-- The parameter loop preserves distinctness of the collected set. -/
theorem depParamLoop_nodup (names attrTypes : List String) :
    ∀ (ps : List Parameter) (deps : List String), deps.Nodup →
      (depParamLoop names attrTypes deps ps).Nodup := by
  intro ps
  induction ps with
  | nil => intro deps h; simpa [depParamLoop] using h
  | cons p rest ih =>
    intro deps h
    simp only [depParamLoop]
    split
    · exact ih deps h
    · split
      · exact ih deps h
      · split
        · exact ih _ (addDep_nodup _ _ h)
        · exact ih deps h

/-- The method loop preserves distinctness of the collected set. -/
theorem depMethodLoop_nodup (names attrTypes : List String) :
    ∀ (ms : List Method) (deps : List String), deps.Nodup →
      (depMethodLoop names attrTypes deps ms).Nodup := by
  intro ms
  induction ms with
  | nil => intro deps h; simpa [depMethodLoop] using h
  | cons m rest ih =>
    intro deps h
    simp only [depMethodLoop]
    have h1 : (depParamLoop names attrTypes deps m.parameters).Nodup :=
      depParamLoop_nodup names attrTypes m.parameters deps h
    split
    · exact ih _ h1
    · split
      · exact ih _ (addDep_nodup _ _ h1)
      · exact ih _ h1

/-- The dependency set collected for one class has no duplicates. -/
theorem collectDeps_nodup (cls : Class) (names : List String) :
    (collectDeps cls names).Nodup :=
  depMethodLoop_nodup names (attributeTypesOf cls) cls.methods [] List.nodup_nil

/-- The dependency emission loop, scrubbed of its random relationship
ids, maps each collected name to one `uses` dependency relationship. -/
theorem depRelLoop_scrub (g : Gen) (s : String) (cmap : List (String × String)) :
    ∀ (ds : List String) (k : Nat),
      ((depRelLoop g k s cmap ds).1).map scrubRel
        = ds.map (fun n =>
            (⟨.dependency, s, classMapFind cmap n, "", some "uses", none⟩ :
              Relationship)) := by
  intro ds
  induction ds with
  | nil => intro k; rfl
  | cons d rest ih => intro k; simp [depRelLoop, scrubRel, ih]

/-- C5 amended: the dependency pass emits exactly one relationship per
name in its deduplicated dependency set, and a name is in that set if
and only if it is referenced by some method parameter type (for a
parameter not literally named `self` or `cls`) or return type, is a
known class name, and is not the base type name of any attribute of the
class. -/
theorem dependency_pass_characterization (g : Gen) (k : Nat) (cls : Class)
    (names : List String) (cmap : List (String × String)) :
    ((inferDependencies g k cls names cmap).1).map scrubRel
      = (collectDeps cls names).map
          (fun n => (⟨.dependency, cls.id, classMapFind cmap n, "",
            some "uses", none⟩ : Relationship)) ∧
    (collectDeps cls names).Nodup ∧
    (∀ n : String, n ∈ collectDeps cls names ↔
      (codeClassReferences cls n = true ∧ n ∈ names ∧
        n ∉ attributeTypesOf cls)) := by
  refine ⟨depRelLoop_scrub g cls.id cmap (collectDeps cls names) k,
    collectDeps_nodup cls names, ?_⟩
  intro n
  unfold collectDeps codeClassReferences
  rw [depMethodLoop_mem]
  simp

/-- Counterexample to C5 as stated: in class `U` the only method has a
`Department`-typed parameter literally named `cls`; `Department` is a
known class name and not an attribute base type, so the claim demands
exactly one dependency relationship, but the pass skips parameters
named `self`/`cls` and emits none. -/
theorem dependency_pass_self_cls_counterexample :
    specClassReferences c5ExampleClass "Department" = true ∧
    "Department" ∈ (["U", "Department"] : List String) ∧
    "Department" ∉ attributeTypesOf c5ExampleClass ∧
    (inferDependencies gEx 0 c5ExampleClass ["U", "Department"]
      [("U", "idU"), ("Department", "idD")]).1 = [] :=
  ⟨by decide, by decide, by decide, by decide⟩

/-- The inheritance pass, scrubbed of its random relationship ids, is a
pure function of the base-name list. -/
theorem inhLoop_scrub (g : Gen) (s : String) (names : List String)
    (cmap : List (String × String)) :
    ∀ (bs : List String) (k : Nat),
      ((inheritanceLoop g k s names cmap bs).1).map scrubRel
        = inhScrub s names cmap bs := by
  intro bs
  induction bs with
  | nil => intro k; rfl
  | cons b rest ih =>
    intro k
    by_cases hb : b ∈ names <;>
      simp [inheritanceLoop, inhScrub, hb, scrubRel, ih, List.filterMap_cons]

/-- `inferInheritance`, scrubbed, in terms of `inhScrub`. -/
theorem inferInheritance_scrub (g : Gen) (k : Nat) (c : Class)
    (names : List String) (cmap : List (String × String)) :
    ((inferInheritance g k c names cmap).1).map scrubRel
      = inhScrub c.id names cmap c.base_classes :=
  inhLoop_scrub g c.id names cmap c.base_classes k

/-- `inferCompositionAggregation`, scrubbed, in terms of the
per-attribute rule. -/
theorem inferCompAgg_scrub (g : Gen) (k : Nat) (c : Class)
    (names : List String) (cmap : List (String × String)) :
    ((inferCompositionAggregation g k c names cmap).1).map scrubRel
      = c.attributes.filterMap (specCompAggRelFor c.id names cmap) :=
  compAggLoop_scrub g c.id names cmap c.attributes k

/-- `inferDependencies`, scrubbed, in terms of the collected set. -/
theorem inferDeps_scrub (g : Gen) (k : Nat) (c : Class)
    (names : List String) (cmap : List (String × String)) :
    ((inferDependencies g k c names cmap).1).map scrubRel
      = (collectDeps c names).map (fun n =>
          (⟨.dependency, c.id, classMapFind cmap n, "", some "uses", none⟩ :
            Relationship)) :=
  depRelLoop_scrub g c.id cmap (collectDeps c names) k

/-- The whole inference loop, scrubbed, flattens the per-class
contributions in input order. -/
theorem relLoop_scrub (g : Gen) (names : List String)
    (cmap : List (String × String)) :
    ∀ (cs : List Class) (k : Nat),
      ((relLoop g k names cmap cs).1).map scrubRel
        = (cs.map (classRelsScrub names cmap)).flatten := by
  intro cs
  induction cs with
  | nil => intro k; rfl
  | cons c rest ih =>
    intro k
    simp only [relLoop, List.map_append, List.map_cons, List.flatten_cons]
    rw [inferInheritance_scrub, inferCompAgg_scrub, inferDeps_scrub, ih]
    simp [classRelsScrub, List.append_assoc]

/-- Counterexample to C7 as stated: with class `A` referencing `B` in a
method signature and class `B` inheriting from `A`, the inferencer
returns the dependency relationship (from `A`, the first class) before
the inheritance relationship (from `B`), not all inheritance
relationships first. -/
theorem relationship_phase_order_counterexample :
    ((inferRelationships gEx 0 [c7ClassA, c7ClassB]).1).map (fun r => r.type)
      = [.dependency, .inheritance] ∧
    (specPhaseOrderedRels gEx [c7ClassA, c7ClassB]).map (fun r => r.type)
      = [.inheritance, .dependency] ∧
    ([RelationshipType.dependency, .inheritance]
      ≠ [RelationshipType.inheritance, .dependency]) ∧
    ((inferRelationships gEx 0 [c7ClassA, c7ClassB]).1).map scrubRel
      ≠ specPhaseOrderedRels gEx [c7ClassA, c7ClassB] :=
  ⟨by decide, by decide, by decide, by decide⟩

/-- C7 amended: the inferencer builds the name lookup over all classes
first and returns, per source class in input order, that class's
inheritance relationships, then its composition/aggregation
relationships, then its dependency relationships, concatenated
(compared after scrubbing the random relationship ids). -/
theorem relationships_concatenated_per_class (g : Gen) (k : Nat)
    (classes : List Class) :
    ((inferRelationships g k classes).1).map scrubRel
      = (classes.map (classRelsScrub (classes.map (fun c => c.name))
          (classes.map (fun c => (c.name, c.id))))).flatten := by
  unfold inferRelationships
  exact relLoop_scrub g (classes.map (fun c => c.name))
    (classes.map (fun c => (c.name, c.id))) classes k

/-- Congruence for list cons. -/
theorem consCongr {α : Type} {a b : α} {l1 l2 : List α} (h1 : a = b)
    (h2 : l1 = l2) : a :: l1 = b :: l2 := by rw [h1, h2]

/-- Congruence for list append. -/
theorem appendCongr {α : Type} {a b c d : List α} (h1 : a = b)
    (h2 : c = d) : a ++ c = b ++ d := by rw [h1, h2]

/-- The class-level simple-assignment target loop yields the same
attributes, up to the random ids, for any two draw supplies. -/
theorem assignTargetsLoop_irrel (g g' : Gen) (v : Expr) :
    ∀ (ts : List Expr) (k k' : Nat),
      ((assignTargetsLoop g k v ts).1).map scrubAttribute
        = ((assignTargetsLoop g' k' v ts).1).map scrubAttribute := by
  intro ts
  induction ts with
  | nil => intro k k'; rfl
  | cons t rest ih =>
    intro k k'
    cases t
    case name i =>
      simp only [assignTargetsLoop, List.map_cons]
      exact consCongr rfl (ih _ _)
    all_goals simpa only [assignTargetsLoop] using ih k k'

/-- Class-level attribute extraction is supply-independent up to the
random ids. -/
theorem extractClassAttributes_irrel (g g' : Gen) :
    ∀ (body : List Stmt) (k k' : Nat),
      ((extractClassAttributes g k body).1).map scrubAttribute
        = ((extractClassAttributes g' k' body).1).map scrubAttribute := by
  intro body
  induction body with
  | nil => intro k k'; rfl
  | cons s rest ih =>
    intro k k'
    cases s
    case assign targets value =>
      simp only [extractClassAttributes, List.map_append]
      exact appendCongr (assignTargetsLoop_irrel g g' value targets k k') (ih _ _)
    case annAssign tgt ann value =>
      cases tgt
      case name i =>
        simp only [extractClassAttributes, List.map_cons]
        exact consCongr rfl (ih _ _)
      all_goals simpa only [extractClassAttributes] using ih k k'
    all_goals simpa only [extractClassAttributes] using ih k k'

/-- The `__init__` simple-assignment target loop is supply-independent
up to the random ids. -/
theorem initTargetsLoop_irrel (g g' : Gen) (v : Expr) :
    ∀ (ts : List Expr) (k k' : Nat),
      ((initTargetsLoop g k v ts).1).map scrubAttribute
        = ((initTargetsLoop g' k' v ts).1).map scrubAttribute := by
  intro ts
  induction ts with
  | nil => intro k k'; rfl
  | cons t rest ih =>
    intro k k'
    cases t
    case attr tv a =>
      cases tv
      case name sid =>
        by_cases hs : sid = "self"
        · simp only [initTargetsLoop, hs, if_true, List.map_cons]
          exact consCongr rfl (ih _ _)
        · simpa only [initTargetsLoop, hs, if_false] using ih k k'
      all_goals simpa only [initTargetsLoop] using ih k k'
    all_goals simpa only [initTargetsLoop] using ih k k'

/-- Constructor-attribute extraction is supply-independent up to the
random ids. -/
theorem extractInitAttributes_irrel (g g' : Gen) :
    ∀ (body : List Stmt) (k k' : Nat),
      ((extractInitAttributes g k body).1).map scrubAttribute
        = ((extractInitAttributes g' k' body).1).map scrubAttribute := by
  intro body
  induction body with
  | nil => intro k k'; rfl
  | cons s rest ih =>
    intro k k'
    cases s
    case assign targets value =>
      simp only [extractInitAttributes, List.map_append]
      exact appendCongr (initTargetsLoop_irrel g g' value targets k k') (ih _ _)
    case annAssign tgt ann value =>
      cases tgt
      case attr tv a =>
        cases tv
        case name sid =>
          by_cases hs : sid = "self"
          · simp only [extractInitAttributes, hs, if_true, List.map_cons]
            exact consCongr rfl (ih _ _)
          · simpa only [extractInitAttributes, hs, if_false] using ih k k'
        all_goals simpa only [extractInitAttributes] using ih k k'
      all_goals simpa only [extractInitAttributes] using ih k k'
    all_goals simpa only [extractInitAttributes] using ih k k'

/-- The class-body method loop is supply-independent up to the random
ids, in both its method list and its extra attribute list. -/
theorem classBodyLoop_irrel (g g' : Gen) :
    ∀ (body : List Stmt) (k k' : Nat),
      ((classBodyLoop g k body).1).map scrubMethod
        = ((classBodyLoop g' k' body).1).map scrubMethod ∧
      ((classBodyLoop g k body).2.1).map scrubAttribute
        = ((classBodyLoop g' k' body).2.1).map scrubAttribute := by
  intro body
  induction body with
  | nil => intro k k'; exact ⟨rfl, rfl⟩
  | cons s rest ih =>
    intro k k'
    cases s
    case functionDef fn args fbody decs rets =>
      by_cases hfn : fn = "__init__"
      · simp only [classBodyLoop, hfn, if_true, List.map_cons, List.map_append]
        constructor
        · exact consCongr rfl (ih _ _).1
        · exact appendCongr (extractInitAttributes_irrel g g' fbody _ _) (ih _ _).2
      · simp only [classBodyLoop, hfn, if_false, List.map_cons, List.map_append,
          List.nil_append]
        constructor
        · exact consCongr rfl (ih _ _).1
        · exact (ih _ _).2
    all_goals simpa only [classBodyLoop] using ih k k'

/-- One class extraction is supply-independent up to the random ids. -/
theorem extractClass_scrub_irrel (cd : CDef) (g g' : Gen) (k k' : Nat) :
    scrubClass (extractClass g k cd).1 = scrubClass (extractClass g' k' cd).1 := by
  simp only [extractClass, scrubClass, List.map_append, Class.mk.injEq,
    true_and, and_true]
  refine ⟨?_, ?_⟩
  · rw [extractClassAttributes_irrel g g' cd.body k k',
      (classBodyLoop_irrel g g' cd.body _ _).2]
  · exact (classBodyLoop_irrel g g' cd.body _ _).1

/-- The whole class-extraction loop is supply-independent up to the
random ids. -/
theorem extractClassesLoop_irrel :
    ∀ (cds : List CDef) (g g' : Gen) (k k' : Nat),
      ((extractClassesLoop g k cds).1).map scrubClass
        = ((extractClassesLoop g' k' cds).1).map scrubClass := by
  intro cds
  induction cds with
  | nil => intro g g' k k'; rfl
  | cons cd rest ih =>
    intro g g' k k'
    simp only [extractClassesLoop, List.map_cons]
    exact consCongr (extractClass_scrub_irrel cd g g' k k') (ih g g' _ _)

/-- The dependency collection ignores the method ids that scrubbing
erases. -/
theorem depMethodLoop_scrubMethods (names attrTypes : List String) :
    ∀ (ms : List Method) (deps : List String),
      depMethodLoop names attrTypes deps (ms.map scrubMethod)
        = depMethodLoop names attrTypes deps ms := by
  intro ms
  induction ms with
  | nil => intro deps; rfl
  | cons m rest ih =>
    intro deps
    simp only [List.map_cons, depMethodLoop, scrubMethod]
    exact ih _

/-- The dependency set of a class is unchanged by scrubbing. -/
theorem collectDeps_scrubClass (c : Class) (names : List String) :
    collectDeps (scrubClass c) names = collectDeps c names := by
  have h1 : attributeTypesOf (scrubClass c) = attributeTypesOf c := by
    show (c.attributes.map scrubAttribute).filterMap _ = _
    rw [List.filterMap_map]
    rfl
  show depMethodLoop names (attributeTypesOf (scrubClass c)) []
      (c.methods.map scrubMethod) = _
  rw [h1, depMethodLoop_scrubMethods]
  rfl

/-- The per-class scrubbed relationship contribution is unchanged by
scrubbing the class (it never reads the erased ids). -/
theorem classRelsScrub_scrubClass (names : List String)
    (cmap : List (String × String)) (c : Class) :
    classRelsScrub names cmap (scrubClass c) = classRelsScrub names cmap c := by
  unfold classRelsScrub
  rw [collectDeps_scrubClass]
  show inhScrub c.id names cmap c.base_classes
      ++ (c.attributes.map scrubAttribute).filterMap
          (specCompAggRelFor c.id names cmap)
      ++ _ = _
  rw [List.filterMap_map]
  rfl

/-- C1 amended: extraction is deterministic up to the `uuid4`-assigned
identifiers.  Two extraction runs of the same source (any two supplies
of fresh uuid4 values) return packages that are equal after erasing the
attribute, method, relationship and package identifiers; in particular
the class lists (with their deterministic class identifiers), the
relationship kinds, orderings and endpoints, and every other field
coincide. -/
theorem scrubbed_extraction_deterministic (parsed : Except String Module)
    (source_name : String) (g1 g2 : Gen) (k1 k2 : Nat) :
    (parseSource g1 k1 parsed source_name).map scrubPackage
      = (parseSource g2 k2 parsed source_name).map scrubPackage := by
  cases parsed with
  | error e => rfl
  | ok tree =>
    have hcls := extractClassesLoop_irrel (walkClasses tree.body) g1 g2 k1 k2
    have hnames :
        ((extractClassesLoop g1 k1 (walkClasses tree.body)).1).map (fun c => c.name)
          = ((extractClassesLoop g2 k2 (walkClasses tree.body)).1).map
              (fun c => c.name) := by
      have h := congrArg (List.map (fun c => c.name)) hcls
      simpa [List.map_map, Function.comp, scrubClass] using h
    have hcmap :
        ((extractClassesLoop g1 k1 (walkClasses tree.body)).1).map
            (fun c => (c.name, c.id))
          = ((extractClassesLoop g2 k2 (walkClasses tree.body)).1).map
              (fun c => (c.name, c.id)) := by
      have h := congrArg (List.map (fun c => (c.name, c.id))) hcls
      simpa [List.map_map, Function.comp, scrubClass] using h
    have hrels :
        ((inferRelationships g1 (extractClassesLoop g1 k1 (walkClasses tree.body)).2
            (extractClassesLoop g1 k1 (walkClasses tree.body)).1).1).map scrubRel
          = ((inferRelationships g2 (extractClassesLoop g2 k2 (walkClasses tree.body)).2
              (extractClassesLoop g2 k2 (walkClasses tree.body)).1).1).map scrubRel := by
      unfold inferRelationships
      rw [relLoop_scrub, relLoop_scrub, hnames, hcmap]
      have h := congrArg (List.map (classRelsScrub
        (((extractClassesLoop g2 k2 (walkClasses tree.body)).1).map (fun c => c.name))
        (((extractClassesLoop g2 k2 (walkClasses tree.body)).1).map
          (fun c => (c.name, c.id))))) hcls
      rw [List.map_map, List.map_map] at h
      have hcomp :
          (classRelsScrub
            (((extractClassesLoop g2 k2 (walkClasses tree.body)).1).map (fun c => c.name))
            (((extractClassesLoop g2 k2 (walkClasses tree.body)).1).map
              (fun c => (c.name, c.id)))) ∘ scrubClass
            = classRelsScrub
                (((extractClassesLoop g2 k2 (walkClasses tree.body)).1).map (fun c => c.name))
                (((extractClassesLoop g2 k2 (walkClasses tree.body)).1).map
                  (fun c => (c.name, c.id))) := by
        funext c
        exact classRelsScrub_scrubClass _ _ c
      rw [hcomp] at h
      rw [h]
    simp only [parseSource, Except.map, scrubPackage, Package.mk.injEq,
      Except.ok.injEq, hcls, hrels, and_self, and_true, true_and]

/-- Counterexample to C1 as stated: re-extracting the same one-class,
one-attribute source with two different uuid4 supplies yields different
attribute identifiers (uuid4 is drawn fresh per construction, not
derived from the source). -/
theorem attribute_ids_not_deterministic :
    ((parseSource gEx 0
        (.ok ⟨[.classDef "A" [] [.annAssign (.name "x") (.name "int") none] []]⟩)
        "t.py").toOption.map
      (fun p => p.classes.map (fun c => c.attributes.map (fun a => a.id))))
      = some [["u0"]] ∧
    ((parseSource gEx2 0
        (.ok ⟨[.classDef "A" [] [.annAssign (.name "x") (.name "int") none] []]⟩)
        "t.py").toOption.map
      (fun p => p.classes.map (fun c => c.attributes.map (fun a => a.id))))
      = some [["w0"]] ∧
    ("u0" : String) ≠ "w0" := by
  refine ⟨?_, ?_, by decide⟩ <;>
    (simp only [parseSource, walkClasses, List.nil_append]
     decide)

end Drait
